import Mathlib

/-!
Shallow embedding of the `mblend` motion-blending library
(`mblend/__init__.py`) over exact rational arithmetic.

The source represents one-dimensional motions as time-shifted polynomials
(`PolynomialMotion`), blends two motions with a cubic obtained from a 4x4
linear solve (`poly_blend_3`), dispatches evaluation piecewise
(`PolynomialMotionBlend._compute`) and simplifies nested blends
(`_flatten`).  Machine floats are modelled by `ℚ`; numpy arrays by lists,
with a small value type recording the scalar / 1-d / 0-d shape distinction
where properties speak about shapes.
-/

set_option maxHeartbeats 1000000

/-- Dot product of two coefficient lists (a 1-d numpy matmul). -/
def dotL (xs ys : List ℚ) : ℚ := (List.zipWith (fun a b => a * b) xs ys).sum

/-- One row of `np.vander(τ, n)`: the powers `τ^(n-1), …, τ^0`. -/
def vanderRow (τ : ℚ) (n : ℕ) : List ℚ := (List.range n).map fun j => τ ^ (n - 1 - j)

/-- Scalar semantics of `PolynomialMotion.at`: the row of
`np.vander(t - offset, degree + 1)` times the coefficient column. -/
def polyAt (offset : ℚ) (coeffs : List ℚ) (t : ℚ) : ℚ :=
  dotL (vanderRow (t - offset) coeffs.length) coeffs

/-- The derivative rows `dv` built in `PolynomialMotion.d_at`:
`i * τ^(i-1)` for `i = degree, …, 1` (empty when `degree = 0`). -/
def derivRow (degree : ℕ) (τ : ℚ) : List ℚ :=
  ((List.range' 1 degree).reverse).map fun (i : ℕ) => (i : ℚ) * τ ^ (i - 1)

/-- Scalar semantics of `PolynomialMotion.d_at`: `dv.T @ coeffs[:-1]`. -/
def polyDAt (offset : ℚ) (coeffs : List ℚ) (t : ℚ) : ℚ :=
  dotL (derivRow (coeffs.length - 1) (t - offset)) coeffs.dropLast

/-- Motions of the library: `PolynomialMotion offset coeffs` (coefficients
highest degree first) and `PolynomialMotionBlend m1 m2 offset horizon blend`
(the `blend` field is the cubic stored by `__post_init__`). -/
inductive Motion where
  | poly (offset : ℚ) (coeffs : List ℚ)
  | pblend (m1 m2 : Motion) (offset horizon : ℚ) (blend : Motion)
  deriving DecidableEq, Repr

/-- Scalar `at`.  For a blend this is `PolynomialMotionBlend._compute` with a
single time: the three masks `t < low`, `t > high`, `low ≤ t ≤ high` are
disjoint and total, so exactly one delegate is evaluated. -/
def Motion.pos : Motion → ℚ → ℚ
  | .poly o cs, t => polyAt o cs t
  | .pblend m1 m2 o hz b, t =>
      if t < o then m1.pos t
      else if o + hz < t then m2.pos t
      else b.pos t

/-- Scalar `d_at`, dispatching exactly as `Motion.pos`. -/
def Motion.d_at : Motion → ℚ → ℚ
  | .poly o cs, t => polyDAt o cs t
  | .pblend m1 m2 o hz b, t =>
      if t < o then m1.d_at t
      else if o + hz < t then m2.d_at t
      else b.d_at t

/-- The `offset` attribute exposed by every motion. -/
def Motion.offsetField : Motion → ℚ
  | .poly o _ => o
  | .pblend _ _ o _ _ => o

/-- The `degree` attribute of a `PolynomialMotion`
(`len(coeffs) - 1`, set in `__post_init__`); composites have none. -/
def Motion.polyDegree : Motion → Option ℕ
  | .poly _ cs => some (cs.length - 1)
  | .pblend _ _ _ _ _ => none

/-- Column vector of four rationals. -/
structure Vec4 where
  x0 : ℚ
  x1 : ℚ
  x2 : ℚ
  x3 : ℚ
  deriving DecidableEq, Repr

/-- A 4x4 matrix given by rows. -/
structure Mat4 where
  r0 : Vec4
  r1 : Vec4
  r2 : Vec4
  r3 : Vec4
  deriving DecidableEq, Repr

/-- Determinant of a 2x2 matrix `[[a,b],[c,d]]`. -/
def det2 (a b c d : ℚ) : ℚ := a * d - b * c

/-- Determinant of a 3x3 matrix `[[a,b,c],[d,e,f],[g,h,i]]`. -/
def det3 (a b c d e f g h i : ℚ) : ℚ :=
  a * det2 e f h i - b * det2 d f g i + c * det2 d e g h

/-- Determinant of a 4x4 matrix, Laplace expansion along the first row. -/
def det4 (A : Mat4) : ℚ :=
  A.r0.x0 * det3 A.r1.x1 A.r1.x2 A.r1.x3 A.r2.x1 A.r2.x2 A.r2.x3 A.r3.x1 A.r3.x2 A.r3.x3
  - A.r0.x1 * det3 A.r1.x0 A.r1.x2 A.r1.x3 A.r2.x0 A.r2.x2 A.r2.x3 A.r3.x0 A.r3.x2 A.r3.x3
  + A.r0.x2 * det3 A.r1.x0 A.r1.x1 A.r1.x3 A.r2.x0 A.r2.x1 A.r2.x3 A.r3.x0 A.r3.x1 A.r3.x3
  - A.r0.x3 * det3 A.r1.x0 A.r1.x1 A.r1.x2 A.r2.x0 A.r2.x1 A.r2.x2 A.r3.x0 A.r3.x1 A.r3.x2

/-- Column 0 of `A` replaced by `b`. -/
def setCol0 (A : Mat4) (b : Vec4) : Mat4 :=
  ⟨⟨b.x0, A.r0.x1, A.r0.x2, A.r0.x3⟩, ⟨b.x1, A.r1.x1, A.r1.x2, A.r1.x3⟩,
   ⟨b.x2, A.r2.x1, A.r2.x2, A.r2.x3⟩, ⟨b.x3, A.r3.x1, A.r3.x2, A.r3.x3⟩⟩

/-- Column 1 of `A` replaced by `b`. -/
def setCol1 (A : Mat4) (b : Vec4) : Mat4 :=
  ⟨⟨A.r0.x0, b.x0, A.r0.x2, A.r0.x3⟩, ⟨A.r1.x0, b.x1, A.r1.x2, A.r1.x3⟩,
   ⟨A.r2.x0, b.x2, A.r2.x2, A.r2.x3⟩, ⟨A.r3.x0, b.x3, A.r3.x2, A.r3.x3⟩⟩

/-- Column 2 of `A` replaced by `b`. -/
def setCol2 (A : Mat4) (b : Vec4) : Mat4 :=
  ⟨⟨A.r0.x0, A.r0.x1, b.x0, A.r0.x3⟩, ⟨A.r1.x0, A.r1.x1, b.x1, A.r1.x3⟩,
   ⟨A.r2.x0, A.r2.x1, b.x2, A.r2.x3⟩, ⟨A.r3.x0, A.r3.x1, b.x3, A.r3.x3⟩⟩

/-- Column 3 of `A` replaced by `b`. -/
def setCol3 (A : Mat4) (b : Vec4) : Mat4 :=
  ⟨⟨A.r0.x0, A.r0.x1, A.r0.x2, b.x0⟩, ⟨A.r1.x0, A.r1.x1, A.r1.x2, b.x1⟩,
   ⟨A.r2.x0, A.r2.x1, A.r2.x2, b.x2⟩, ⟨A.r3.x0, A.r3.x1, A.r3.x2, b.x3⟩⟩

/-- Exact solution of `A x = b` (model of `np.linalg.solve` on a nonsingular
matrix, written via Cramer's rule, which agrees with the LU solve wherever
`det4 A ≠ 0`). -/
def np_linalg_solve (A : Mat4) (b : Vec4) : Vec4 :=
  ⟨det4 (setCol0 A b) / det4 A, det4 (setCol1 A b) / det4 A,
   det4 (setCol2 A b) / det4 A, det4 (setCol3 A b) / det4 A⟩

/-- The fixed system matrix of `poly_blend_3`, rows exactly as assigned in
the source: `[0,0,0,1]`, `[h³,h²,h,1]`, `[0,0,1,0]`, `[3h²,2h,1,0]`. -/
def blendA (h : ℚ) : Mat4 :=
  ⟨⟨0, 0, 0, 1⟩, ⟨h ^ 3, h ^ 2, h, 1⟩, ⟨0, 0, 1, 0⟩, ⟨3 * h ^ 2, 2 * h, 1, 0⟩⟩

/-- The right-hand side of `poly_blend_3`: the four sampled boundary values. -/
def blendB (m1 m2 : Motion) (tnow h : ℚ) : Vec4 :=
  ⟨m1.pos tnow, m2.pos (tnow + h), m1.d_at tnow, m2.d_at (tnow + h)⟩

/-- `poly_blend_3 m1 m2 tnow h`: raises `ValueError` (`none`) when `h ≤ 0`,
otherwise solves the boundary system and returns
`PolynomialMotion(tnow, coeffs)`. -/
def poly_blend_3 (m1 m2 : Motion) (tnow h : ℚ) : Option Motion :=
  if h ≤ 0 then none
  else
    let c := np_linalg_solve (blendA h) (blendB m1 m2 tnow h)
    some (.poly tnow [c.x0, c.x1, c.x2, c.x3])

/-- The recursive simplifier `_flatten(m, offset)`. -/
def _flatten : Motion → ℚ → Motion
  | .poly o cs, _ => .poly o cs
  | .pblend m1 m2 o hz b, offset =>
      if o + hz < offset then m2
      else if o < offset then b
      else _flatten m1 offset

/-- Number of composite (`PolynomialMotionBlend`) nodes inside a motion. -/
def nestedComposites : Motion → ℕ
  | .poly _ _ => 0
  | .pblend m1 m2 _ _ b =>
      nestedComposites m1 + nestedComposites m2 + nestedComposites b + 1

/-- Fuel-metered variant of `_flatten`, making the recursion depth explicit:
`none` means the fuel ran out before the recursion finished. -/
def flattenFuel : ℕ → Motion → ℚ → Option Motion
  | 0, _, _ => none
  | _ + 1, .poly o cs, _ => some (.poly o cs)
  | fuel + 1, .pblend m1 m2 o hz b, offset =>
      if o + hz < offset then some m2
      else if o < offset then some b
      else flattenFuel fuel m1 offset

/-- `IsSub s m`: `s` is a node already present in `m`'s structure (either `m`
itself or reachable through the `m1` / `m2` / `blend` fields). -/
inductive IsSub : Motion → Motion → Prop
  | refl (m : Motion) : IsSub m m
  | m1 {s n1 n2 : Motion} {o hz : ℚ} {b : Motion} :
      IsSub s n1 → IsSub s (.pblend n1 n2 o hz b)
  | m2 {s n1 n2 : Motion} {o hz : ℚ} {b : Motion} :
      IsSub s n2 → IsSub s (.pblend n1 n2 o hz b)
  | blend {s n1 n2 : Motion} {o hz : ℚ} {b : Motion} :
      IsSub s b → IsSub s (.pblend n1 n2 o hz b)

/-- Well-formed motions: every stored `blend` field was produced by
`poly_blend_3 m1 m2 offset horizon` with a positive horizon, which is exactly
what `PolynomialMotionBlend.__post_init__` guarantees for every constructed
composite. -/
inductive WF : Motion → Prop
  | poly (o : ℚ) (cs : List ℚ) : WF (.poly o cs)
  | pblend {n1 n2 b : Motion} {o hz : ℚ} :
      WF n1 → WF n2 → 0 < hz → poly_blend_3 n1 n2 o hz = some b →
      WF (.pblend n1 n2 o hz b)

/-- A scalar or 1-d array argument, as passed to `at` / `d_at`. -/
inductive TimeIn where
  | float (t : ℚ)
  | arr (ts : List ℚ)
  deriving DecidableEq, Repr

/-- Results of the numpy pipelines: a python float (from `.item()`), a 1-d
array, or a 0-d array (a length-1 axis squeezed away). -/
inductive NpVal where
  | float (x : ℚ)
  | arr (xs : List ℚ)
  | arr0 (x : ℚ)
  deriving DecidableEq, Repr

/-- `np.atleast_1d` on a scalar-or-array argument. -/
def atleast_1d : TimeIn → List ℚ
  | .float t => [t]
  | .arr ts => ts

/-- Shape-aware model of `PolynomialMotion.at`:
`np.vander(t - offset, degree + 1) @ coeffs`, then `.item()` for a scalar
input and `squeeze(-1)` (shape `(N,1)` to `(N,)`) for an array input. -/
def np_at (offset : ℚ) (coeffs : List ℚ) (inp : TimeIn) : NpVal :=
  let x := (atleast_1d inp).map fun t => dotL (vanderRow (t - offset) coeffs.length) coeffs
  match inp with
  | .float _ => .float (x.headD 0)
  | .arr _ => .arr x

/-- Shape-aware model of `PolynomialMotion.d_at`.  For `degree ≥ 1` the rows
`dv` form a `(degree, N)` array and `dv.T @ coeffs[:-1]` has shape `(N, 1)`.
For `degree = 0` the row list is empty, so `dv = np.array([])` has shape
`(0,)` and `dv.T @ coeffs[:-1]` (shapes `(0,)` and `(0, 1)`) has shape `(1,)`
holding the empty sum `0.0`: `.item()` still returns the scalar `0.0`, but
`squeeze(-1)` collapses the `(1,)` result to a 0-d array instead of an
`N`-element one. -/
def np_d_at (offset : ℚ) (coeffs : List ℚ) (inp : TimeIn) : NpVal :=
  let ts := (atleast_1d inp).map fun t => t - offset
  let degree := coeffs.length - 1
  if degree = 0 then
    match inp with
    | .float _ => .float 0
    | .arr _ => .arr0 0
  else
    let dx := ts.map fun τ => dotL (derivRow degree τ) coeffs.dropLast
    match inp with
    | .float _ => .float (dx.headD 0)
    | .arr _ => .arr dx

/-- Elementwise array evaluation of a motion.  In `_compute` the three masks
partition the query times, every position of the output is written by exactly
one masked scatter, and each delegate itself evaluates elementwise, so the
assembled array is the elementwise scalar dispatch. -/
def Motion.posArr (m : Motion) (ts : List ℚ) : List ℚ := ts.map m.pos

/-- Elementwise array evaluation of `d_at`, as `Motion.posArr`. -/
def Motion.d_atArr (m : Motion) (ts : List ℚ) : List ℚ := ts.map m.d_at

/-- Closed form of `polyAt` on a four-coefficient (cubic) motion. -/
lemma polyAt_four (o a b c d t : ℚ) :
    polyAt o [a, b, c, d] t = a * (t - o) ^ 3 + b * (t - o) ^ 2 + c * (t - o) + d := by
  simp [polyAt, dotL, vanderRow, List.range_succ]
  ring

/-- Closed form of `polyDAt` on a four-coefficient (cubic) motion. -/
lemma polyDAt_four (o a b c d t : ℚ) :
    polyDAt o [a, b, c, d] t = 3 * a * (t - o) ^ 2 + 2 * b * (t - o) + c := by
  simp [polyDAt, dotL, derivRow, List.range']
  ring

/-- Closed form of `polyAt` on a three-coefficient (quadratic) motion. -/
lemma polyAt_three (o a b c t : ℚ) :
    polyAt o [a, b, c] t = a * (t - o) ^ 2 + b * (t - o) + c := by
  simp [polyAt, dotL, vanderRow, List.range_succ]
  ring

/-- Closed form of `polyDAt` on a three-coefficient (quadratic) motion. -/
lemma polyDAt_three (o a b c t : ℚ) :
    polyDAt o [a, b, c] t = 2 * a * (t - o) + b := by
  simp [polyDAt, dotL, derivRow, List.range']
  ring

/-- The system matrix of `poly_blend_3` has determinant `-h⁴`. -/
lemma det4_blendA (h : ℚ) : det4 (blendA h) = -h ^ 4 := by
  simp [det4, det3, det2, blendA]
  ring

/-- The Cramer solution of the blend system satisfies the four boundary
equations whenever `h ≠ 0`. -/
lemma np_linalg_solve_blendA (h : ℚ) (hh : h ≠ 0) (b : Vec4) :
    (np_linalg_solve (blendA h) b).x3 = b.x0 ∧
    (np_linalg_solve (blendA h) b).x2 = b.x2 ∧
    (np_linalg_solve (blendA h) b).x0 * h ^ 3 + (np_linalg_solve (blendA h) b).x1 * h ^ 2 +
      (np_linalg_solve (blendA h) b).x2 * h + (np_linalg_solve (blendA h) b).x3 = b.x1 ∧
    3 * (np_linalg_solve (blendA h) b).x0 * h ^ 2 + 2 * (np_linalg_solve (blendA h) b).x1 * h +
      (np_linalg_solve (blendA h) b).x2 = b.x3 := by
  obtain ⟨b0, b1, b2, b3⟩ := b
  have hd : -(h ^ 2 * (3 * h ^ 2)) + h ^ 3 * (2 * h) ≠ 0 := by
    intro e
    exact pow_ne_zero 4 hh (by linarith [e] : h ^ 4 = 0)
  refine ⟨?_, ?_, ?_, ?_⟩ <;>
    simp [np_linalg_solve, det4, det3, det2, setCol0, setCol1, setCol2, setCol3, blendA] <;>
    field_simp <;>
    ring

/-- Boundary matching of the blend: positions and velocities agree with the
two input motions at `tnow` and `tnow + h`. -/
lemma poly_blend_3_boundary (m1 m2 : Motion) (tnow h : ℚ) (hh : 0 < h) :
    ∃ mb, poly_blend_3 m1 m2 tnow h = some mb ∧
      mb.pos tnow = m1.pos tnow ∧ mb.pos (tnow + h) = m2.pos (tnow + h) ∧
      mb.d_at tnow = m1.d_at tnow ∧ mb.d_at (tnow + h) = m2.d_at (tnow + h) := by
  have hne : h ≠ 0 := ne_of_gt hh
  obtain ⟨e0, e2, e1, e3⟩ := np_linalg_solve_blendA h hne (blendB m1 m2 tnow h)
  set c := np_linalg_solve (blendA h) (blendB m1 m2 tnow h) with hc
  refine ⟨.poly tnow [c.x0, c.x1, c.x2, c.x3], ?_, ?_, ?_, ?_, ?_⟩
  · simp [poly_blend_3, not_le.mpr hh, hc]
  · simpa [Motion.pos, polyAt_four, blendB] using e0
  · rw [Motion.pos, polyAt_four]
    have : tnow + h - tnow = h := by ring
    rw [this]
    calc c.x0 * h ^ 3 + c.x1 * h ^ 2 + c.x2 * h + c.x3
        = (blendB m1 m2 tnow h).x1 := e1
      _ = m2.pos (tnow + h) := rfl
  · simpa [Motion.d_at, polyDAt_four, blendB] using e2
  · rw [Motion.d_at, polyDAt_four]
    have : tnow + h - tnow = h := by ring
    rw [this]
    calc 3 * c.x0 * h ^ 2 + 2 * c.x1 * h + c.x2
        = (blendB m1 m2 tnow h).x3 := e3
      _ = m2.d_at (tnow + h) := rfl

/-- Blending a quadratic `PolynomialMotion` with itself: the solved cubic has
leading coefficient `0`, and its remaining coefficients are the quadratic
re-expanded about the blend start `t0`. -/
lemma poly_blend_3_self_quad (o a b c t0 h : ℚ) (hh : 0 < h) :
    poly_blend_3 (.poly o [a, b, c]) (.poly o [a, b, c]) t0 h =
      some (.poly t0
        [0, a, 2 * a * (t0 - o) + b, a * (t0 - o) ^ 2 + b * (t0 - o) + c]) := by
  have hd : -(h ^ 2 * (3 * h ^ 2)) + h ^ 3 * (2 * h) ≠ 0 := by
    intro e
    exact pow_ne_zero 4 (ne_of_gt hh) (by linarith [e] : h ^ 4 = 0)
  rw [poly_blend_3, if_neg (not_le.mpr hh)]
  simp only [blendB, Motion.pos, Motion.d_at, polyAt_three, polyDAt_three,
    np_linalg_solve, det4, det3, det2, setCol0, setCol1, setCol2, setCol3, blendA,
    Option.some.injEq, Motion.poly.injEq, List.cons.injEq, and_true, true_and]
  refine ⟨?_, ?_, ?_, ?_⟩ <;> field_simp <;> ring

/-- Unfolding `dotL` on two cons cells. -/
lemma dotL_cons (a b : ℚ) (as bs : List ℚ) :
    dotL (a :: as) (b :: bs) = a * b + dotL as bs := by
  simp [dotL]

/-- A dot product against a row generated over `List.range` is a finite sum. -/
lemma dotL_map_range (cs : List ℚ) :
    ∀ f : ℕ → ℚ, dotL ((List.range cs.length).map f) cs =
      ∑ i ∈ Finset.range cs.length, f i * cs.getD i 0 := by
  induction cs with
  | nil => intro f; simp [dotL]
  | cons c cs ih =>
      intro f
      rw [List.length_cons, List.range_succ_eq_map, List.map_cons, List.map_map,
        dotL_cons, ih (f ∘ Nat.succ), Finset.sum_range_succ']
      simp [Function.comp, add_comm]

/-- The Vandermonde dot product equals the power-sum form of the claim. -/
lemma vander_dot (τ : ℚ) (cs : List ℚ) :
    dotL (vanderRow τ cs.length) cs =
      ∑ i ∈ Finset.range cs.length, cs.getD i 0 * τ ^ (cs.length - 1 - i) := by
  rw [vanderRow, dotL_map_range]
  exact Finset.sum_congr rfl fun i _ => mul_comm _ _

/-- `nestedComposites m + 1` units of fuel always suffice for `_flatten`:
the recursion only ever descends into `m1`, which has strictly fewer
composites. -/
lemma flattenFuel_complete (offset : ℚ) :
    ∀ (m : Motion) (fuel : ℕ), nestedComposites m < fuel →
      flattenFuel fuel m offset = some (_flatten m offset) := by
  intro m
  induction m with
  | poly o cs =>
      intro fuel hf
      obtain ⟨fuel, rfl⟩ : ∃ k, fuel = k + 1 := ⟨fuel - 1, by omega⟩
      simp [flattenFuel, _flatten]
  | pblend m1 m2 o hz b ih1 ih2 ihb =>
      intro fuel hf
      obtain ⟨fuel, rfl⟩ : ∃ k, fuel = k + 1 := ⟨fuel - 1, by omega⟩
      have h1 : nestedComposites m1 < fuel := by
        simp [nestedComposites] at hf
        omega
      by_cases hA : o + hz < offset
      · simp [flattenFuel, _flatten, hA]
      · by_cases hB : o < offset
        · simp [flattenFuel, _flatten, hA, hB]
        · simpa [flattenFuel, _flatten, hA, hB] using ih1 fuel h1

/-- `_flatten` always returns a node already present in its argument. -/
lemma _flatten_isSub : ∀ (m : Motion) (offset : ℚ), IsSub (_flatten m offset) m := by
  intro m
  induction m with
  | poly o cs => intro offset; simp only [_flatten]; exact IsSub.refl _
  | pblend m1 m2 o hz b ih1 ih2 ihb =>
      intro offset
      simp only [_flatten]
      by_cases hA : o + hz < offset
      · rw [if_pos hA]
        exact IsSub.m2 (IsSub.refl _)
      · rw [if_neg hA]
        by_cases hB : o < offset
        · rw [if_pos hB]
          exact IsSub.blend (IsSub.refl _)
        · rw [if_neg hB]
          exact IsSub.m1 (ih1 offset)

/-- On well-formed motions, `_flatten m offset` agrees with `m` in position
and velocity at the cutoff time itself. -/
lemma _flatten_at_offset {m : Motion} (hm : WF m) (offset : ℚ) :
    (_flatten m offset).pos offset = m.pos offset ∧
    (_flatten m offset).d_at offset = m.d_at offset := by
  induction hm with
  | poly o cs => simp [_flatten]
  | @pblend n1 n2 b o hz h1 h2 hhz hb ih1 ih2 =>
      by_cases hA : o + hz < offset
      · have hno : ¬ offset < o := by linarith
        simp [_flatten, hA, Motion.pos, Motion.d_at, hno]
      · by_cases hB : o < offset
        · have hno : ¬ offset < o := by linarith
          simp [_flatten, hA, hB, Motion.pos, Motion.d_at, hno]
        · obtain ⟨mb, hmb, e1, _, e3, _⟩ := poly_blend_3_boundary n1 n2 o hz hhz
          have hbb : b = mb := by
            rw [hb] at hmb
            exact Option.some.inj hmb
          by_cases hC : offset < o
          · simp [_flatten, hA, hB, Motion.pos, Motion.d_at, hC, ih1.1, ih1.2]
          · have ho : o = offset := le_antisymm (not_lt.mp hC) (not_lt.mp hB)
            subst ho
            rw [show _flatten (Motion.pblend n1 n2 o hz b) o = _flatten n1 o by
                  simp only [_flatten, if_neg hA, if_neg hB]]
            constructor
            · rw [show (Motion.pblend n1 n2 o hz b).pos o = b.pos o by
                    simp only [Motion.pos, if_neg hB, if_neg hA]]
              rw [ih1.1, hbb, ← e1]
            · rw [show (Motion.pblend n1 n2 o hz b).d_at o = b.d_at o by
                    simp only [Motion.d_at, if_neg hB, if_neg hA]]
              rw [ih1.2, hbb, ← e3]

/-- C1: for every pair of motions `m1`, `m2`, every `tnow` and every `h > 0`,
the cubic returned by `poly_blend_3(m1, m2, tnow, h)` matches both motions at
the window boundaries: position at `tnow` equals `m1.at(tnow)`, position at
`tnow + h` equals `m2.at(tnow + h)`, velocity at `tnow` equals
`m1.d_at(tnow)`, and velocity at `tnow + h` equals `m2.d_at(tnow + h)`
(exactly, in the rational model of the float arithmetic). -/
theorem C1_blend_boundary_matching (m1 m2 : Motion) (tnow h : ℚ) (hh : 0 < h)
    (mb : Motion) (hmb : poly_blend_3 m1 m2 tnow h = some mb) :
    mb.pos tnow = m1.pos tnow ∧ mb.pos (tnow + h) = m2.pos (tnow + h) ∧
    mb.d_at tnow = m1.d_at tnow ∧ mb.d_at (tnow + h) = m2.d_at (tnow + h) := by
  obtain ⟨mb2, hmb2, e1, e2, e3, e4⟩ := poly_blend_3_boundary m1 m2 tnow h hh
  rw [hmb] at hmb2
  obtain rfl := Option.some.inj hmb2
  exact ⟨e1, e2, e3, e4⟩

/-- Witness for C1 at a concrete blend of a linear and a constant motion. -/
theorem C1_witness :
    (0 : ℚ) < 1 ∧
    poly_blend_3 (.poly 0 [1, 1]) (.poly 0 [2]) 1 1 = some (.poly 1 [1, -2, 1, 2]) ∧
    (Motion.pos (.poly 1 [1, -2, 1, 2]) 1 = Motion.pos (.poly 0 [1, 1]) 1 ∧
     Motion.pos (.poly 1 [1, -2, 1, 2]) (1 + 1) = Motion.pos (.poly 0 [2]) (1 + 1) ∧
     Motion.d_at (.poly 1 [1, -2, 1, 2]) 1 = Motion.d_at (.poly 0 [1, 1]) 1 ∧
     Motion.d_at (.poly 1 [1, -2, 1, 2]) (1 + 1) = Motion.d_at (.poly 0 [2]) (1 + 1)) := by
  have hb : poly_blend_3 (.poly 0 [1, 1]) (.poly 0 [2]) 1 1 = some (.poly 1 [1, -2, 1, 2]) := by
    norm_num [poly_blend_3, np_linalg_solve, blendA, blendB, det4, det3, det2,
      setCol0, setCol1, setCol2, setCol3, Motion.pos, Motion.d_at, polyAt, polyDAt,
      dotL, vanderRow, derivRow, List.range_succ, List.range']
  exact ⟨by norm_num, hb, C1_blend_boundary_matching _ _ 1 1 (by norm_num) _ hb⟩

/-- C2 counterexample: a well-formed composite (its stored blend is exactly
what `poly_blend_3` produced, horizon `1 > 0`) whose flattening at cutoff
`offset = 0` disagrees with the composite at `t = 10 ≥ offset`: the
recursion returns plain `m1` (the constant `0`) although the composite
evaluates to `m2` (the constant `1`) there. -/
theorem C2_counterexample :
    poly_blend_3 (.poly 0 [0]) (.poly 0 [1]) 5 1 = some (.poly 5 [-2, 3, 0, 0]) ∧
    _flatten (.pblend (.poly 0 [0]) (.poly 0 [1]) 5 1 (.poly 5 [-2, 3, 0, 0])) 0 =
      .poly 0 [0] ∧
    (0 : ℚ) ≤ 10 ∧
    Motion.pos (.poly 0 [0]) 10 = 0 ∧
    Motion.pos (.pblend (.poly 0 [0]) (.poly 0 [1]) 5 1 (.poly 5 [-2, 3, 0, 0])) 10 = 1 ∧
    (0 : ℚ) ≠ 1 := by
  refine ⟨?_, ?_, by norm_num, ?_, ?_, by norm_num⟩
  · norm_num [poly_blend_3, np_linalg_solve, blendA, blendB, det4, det3, det2,
      setCol0, setCol1, setCol2, setCol3, Motion.pos, Motion.d_at, polyAt, polyDAt,
      dotL, vanderRow, derivRow, List.range_succ, List.range']
  · norm_num [_flatten]
  · norm_num [Motion.pos, polyAt, dotL, vanderRow, List.range_succ]
  · norm_num [Motion.pos, polyAt, dotL, vanderRow, List.range_succ]

/-- C2 (amended): on well-formed composites, `_flatten m offset` preserves
position and velocity at the cutoff `offset` itself; agreement on all of
`t ≥ offset` fails (see the counterexample), because the returned node keeps
being used outside the interval on which it coincides with `m`. -/
theorem C2_flatten_agrees_at_offset {m : Motion} (hm : WF m) (offset : ℚ) :
    (_flatten m offset).pos offset = m.pos offset ∧
    (_flatten m offset).d_at offset = m.d_at offset :=
  _flatten_at_offset hm offset

/-- Witness for the amended C2 on a concrete well-formed composite. -/
theorem C2_witness :
    (0 : ℚ) < 1 ∧
    poly_blend_3 (.poly 0 [1]) (.poly 0 [2]) 1 1 = some (.poly 1 [-2, 3, 0, 1]) ∧
    (_flatten (.pblend (.poly 0 [1]) (.poly 0 [2]) 1 1 (.poly 1 [-2, 3, 0, 1])) 2).pos 2 =
      Motion.pos (.pblend (.poly 0 [1]) (.poly 0 [2]) 1 1 (.poly 1 [-2, 3, 0, 1])) 2 ∧
    (_flatten (.pblend (.poly 0 [1]) (.poly 0 [2]) 1 1 (.poly 1 [-2, 3, 0, 1])) 2).d_at 2 =
      Motion.d_at (.pblend (.poly 0 [1]) (.poly 0 [2]) 1 1 (.poly 1 [-2, 3, 0, 1])) 2 := by
  have hb : poly_blend_3 (.poly 0 [1]) (.poly 0 [2]) 1 1 = some (.poly 1 [-2, 3, 0, 1]) := by
    norm_num [poly_blend_3, np_linalg_solve, blendA, blendB, det4, det3, det2,
      setCol0, setCol1, setCol2, setCol3, Motion.pos, Motion.d_at, polyAt, polyDAt,
      dotL, vanderRow, derivRow, List.range_succ, List.range']
  have hwf : WF (.pblend (.poly 0 [1]) (.poly 0 [2]) 1 1 (.poly 1 [-2, 3, 0, 1])) :=
    WF.pblend (WF.poly 0 [1]) (WF.poly 0 [2]) (by norm_num) hb
  obtain ⟨w1, w2⟩ := C2_flatten_agrees_at_offset hwf 2
  exact ⟨by norm_num, hb, w1, w2⟩

/-- C3: a `PolynomialMotionBlend` with window `[o, o + hz]` dispatches `at`
and `d_at` to `m1` for `t < o`, to `m2` for `t > o + hz`, and to the stored
blend for `o ≤ t ≤ o + hz`; both boundary points are served by the blend,
and array inputs are dispatched element by element. -/
theorem C3_piecewise_dispatch (m1 m2 b : Motion) (o hz : ℚ) (hhz : 0 < hz) (t : ℚ) :
    (t < o →
      Motion.pos (.pblend m1 m2 o hz b) t = m1.pos t ∧
      Motion.d_at (.pblend m1 m2 o hz b) t = m1.d_at t) ∧
    (o + hz < t →
      Motion.pos (.pblend m1 m2 o hz b) t = m2.pos t ∧
      Motion.d_at (.pblend m1 m2 o hz b) t = m2.d_at t) ∧
    (o ≤ t → t ≤ o + hz →
      Motion.pos (.pblend m1 m2 o hz b) t = b.pos t ∧
      Motion.d_at (.pblend m1 m2 o hz b) t = b.d_at t) ∧
    (Motion.pos (.pblend m1 m2 o hz b) o = b.pos o ∧
     Motion.pos (.pblend m1 m2 o hz b) (o + hz) = b.pos (o + hz) ∧
     Motion.d_at (.pblend m1 m2 o hz b) o = b.d_at o ∧
     Motion.d_at (.pblend m1 m2 o hz b) (o + hz) = b.d_at (o + hz)) ∧
    (∀ ts : List ℚ, Motion.posArr (.pblend m1 m2 o hz b) ts =
      ts.map fun u => if u < o then m1.pos u else if o + hz < u then m2.pos u else b.pos u) ∧
    (∀ ts : List ℚ, Motion.d_atArr (.pblend m1 m2 o hz b) ts =
      ts.map fun u => if u < o then m1.d_at u else if o + hz < u then m2.d_at u else b.d_at u) := by
  have hoo : ¬ o < o := lt_irrefl o
  have hoh : ¬ o + hz < o := by linarith
  have hho : ¬ o + hz < o + hz := lt_irrefl _
  refine ⟨fun ht => ?_, fun ht => ?_, fun ht1 ht2 => ?_, ⟨?_, ?_, ?_, ?_⟩,
    fun ts => rfl, fun ts => rfl⟩
  · constructor <;> simp [Motion.pos, Motion.d_at, ht]
  · have hto : ¬ t < o := by linarith
    constructor <;> simp [Motion.pos, Motion.d_at, hto, ht]
  · have h1 : ¬ t < o := not_lt.mpr ht1
    have h2 : ¬ o + hz < t := not_lt.mpr ht2
    constructor <;> simp [Motion.pos, Motion.d_at, h1, h2]
  · simp [Motion.pos, hoo, hoh]
  · have : ¬ o + hz < o := hoh
    simp [Motion.pos, not_lt.mpr (by linarith : o ≤ o + hz), hho]
  · simp [Motion.d_at, hoo, hoh]
  · simp [Motion.d_at, not_lt.mpr (by linarith : o ≤ o + hz), hho]

/-- Witness for C3: the three regions and the low boundary on a concrete
composite. -/
theorem C3_witness :
    Motion.pos (.pblend (.poly 0 [5]) (.poly 0 [7]) 0 1 (.poly 0 [9])) (-1) =
      Motion.pos (.poly 0 [5]) (-1) ∧
    Motion.pos (.pblend (.poly 0 [5]) (.poly 0 [7]) 0 1 (.poly 0 [9])) 2 =
      Motion.pos (.poly 0 [7]) 2 ∧
    Motion.pos (.pblend (.poly 0 [5]) (.poly 0 [7]) 0 1 (.poly 0 [9])) 0 =
      Motion.pos (.poly 0 [9]) 0 := by
  refine ⟨?_, ?_, ?_⟩
  · exact ((C3_piecewise_dispatch (.poly 0 [5]) (.poly 0 [7]) (.poly 0 [9]) 0 1
      (by norm_num) (-1)).1 (by norm_num)).1
  · exact ((C3_piecewise_dispatch (.poly 0 [5]) (.poly 0 [7]) (.poly 0 [9]) 0 1
      (by norm_num) 2).2.1 (by norm_num)).1
  · exact (C3_piecewise_dispatch (.poly 0 [5]) (.poly 0 [7]) (.poly 0 [9]) 0 1
      (by norm_num) 0).2.2.2.1.1

/-- C4: `poly_blend_3` fails (returns `none`, the `ValueError`) exactly when
`h ≤ 0`; for `h > 0` it returns a `PolynomialMotion` with `offset = tnow` and
`degree = 3`, and the system matrix is nonsingular (`det ≠ 0`), so the solve
itself never fails in exact arithmetic. -/
theorem C4_failure_iff_and_nonsingular (m1 m2 : Motion) (tnow h : ℚ) :
    (poly_blend_3 m1 m2 tnow h = none ↔ h ≤ 0) ∧
    (0 < h →
      (poly_blend_3 m1 m2 tnow h).map Motion.offsetField = some tnow ∧
      (poly_blend_3 m1 m2 tnow h).bind Motion.polyDegree = some 3 ∧
      det4 (blendA h) ≠ 0) := by
  constructor
  · constructor
    · intro hn
      by_contra hpos
      rw [poly_blend_3, if_neg hpos] at hn
      exact Option.noConfusion hn
    · intro hle
      rw [poly_blend_3, if_pos hle]
  · intro hpos
    have hne : ¬ h ≤ 0 := not_le.mpr hpos
    refine ⟨?_, ?_, ?_⟩
    · rw [poly_blend_3, if_neg hne]
      rfl
    · rw [poly_blend_3, if_neg hne]
      rfl
    · rw [det4_blendA]
      simpa using pow_ne_zero 4 (ne_of_gt hpos)

/-- Witness for C4 at `h = -1` (failure) and `h = 1` (success, degree 3,
offset preserved). -/
theorem C4_witness :
    poly_blend_3 (.poly 0 [1]) (.poly 0 [2]) 0 (-1) = none ∧
    (poly_blend_3 (.poly 0 [1]) (.poly 0 [2]) 0 1).map Motion.offsetField = some 0 ∧
    (poly_blend_3 (.poly 0 [1]) (.poly 0 [2]) 0 1).bind Motion.polyDegree = some 3 := by
  refine ⟨?_, ?_, ?_⟩
  · exact (C4_failure_iff_and_nonsingular (.poly 0 [1]) (.poly 0 [2]) 0 (-1)).1.mpr
      (by norm_num)
  · exact ((C4_failure_iff_and_nonsingular (.poly 0 [1]) (.poly 0 [2]) 0 1).2
      (by norm_num)).1
  · exact ((C4_failure_iff_and_nonsingular (.poly 0 [1]) (.poly 0 [2]) 0 1).2
      (by norm_num)).2.1

/-- C5 counterexample.  First: for the cubic motion `t³` the self-blend over
`[0, 1]` has leading coefficient `1 ≠ 0`, refuting "for every motion m …
leading coefficient is zero".  Second: for the quadratic `(t − 1)²` (offset
`1`) the self-blend at `t0 = 0` has remaining coefficients `[1, -2, 1]`,
not the motion's own coefficients `[1, 0, 0]`. -/
theorem C5_counterexample :
    poly_blend_3 (.poly 0 [1, 0, 0, 0]) (.poly 0 [1, 0, 0, 0]) 0 1 =
      some (.poly 0 [1, 0, 0, 0]) ∧
    (1 : ℚ) ≠ 0 ∧
    poly_blend_3 (.poly 1 [1, 0, 0]) (.poly 1 [1, 0, 0]) 0 1 =
      some (.poly 0 [0, 1, -2, 1]) ∧
    [(1 : ℚ), -2, 1] ≠ [1, 0, 0] := by
  refine ⟨?_, by norm_num, ?_, by norm_num⟩ <;>
    norm_num [poly_blend_3, np_linalg_solve, blendA, blendB, det4, det3, det2,
      setCol0, setCol1, setCol2, setCol3, Motion.pos, Motion.d_at, polyAt, polyDAt,
      dotL, vanderRow, derivRow, List.range_succ, List.range']

/-- C5 (amended): for every quadratic `PolynomialMotion` `m` and every `t0`
and `h > 0`, the self-blend has leading (cubic) coefficient exactly `0` and
its remaining coefficients are `m`'s quadratic re-expanded about `t0`; when
moreover `m.offset = t0`, they are exactly `m`'s own coefficients. -/
theorem C5_self_blend_quadratic (o a b c t0 h : ℚ) (hh : 0 < h) :
    poly_blend_3 (.poly o [a, b, c]) (.poly o [a, b, c]) t0 h =
      some (.poly t0
        [0, a, 2 * a * (t0 - o) + b, a * (t0 - o) ^ 2 + b * (t0 - o) + c]) ∧
    (o = t0 →
      poly_blend_3 (.poly o [a, b, c]) (.poly o [a, b, c]) t0 h =
        some (.poly t0 [0, a, b, c])) := by
  refine ⟨poly_blend_3_self_quad o a b c t0 h hh, fun ho => ?_⟩
  subst ho
  simpa using poly_blend_3_self_quad o a b c o h hh

/-- Witness for the amended C5 with `m = t² + 2t + 3`, `o = t0 = 0`, `h = 1`. -/
theorem C5_witness :
    (0 : ℚ) < 1 ∧
    poly_blend_3 (.poly 0 [1, 2, 3]) (.poly 0 [1, 2, 3]) 0 1 =
      some (.poly 0 [0, 1, 2, 3]) := by
  have w := (C5_self_blend_quadratic 0 1 2 3 0 1 (by norm_num)).2 rfl
  exact ⟨by norm_num, w⟩

/-- C6: `PolynomialMotion.at` returns `Σ coeffs[i] · (t − offset)^(degree−i)`
and preserves the input shape: a scalar yields a scalar, an array yields the
elementwise array of the same length (`List.map` preserves length). -/
theorem C6_at_formula_and_shape (o : ℚ) (cs : List ℚ) (t : ℚ) (ts : List ℚ) :
    np_at o cs (.float t) =
      .float (∑ i ∈ Finset.range cs.length, cs.getD i 0 * (t - o) ^ (cs.length - 1 - i)) ∧
    np_at o cs (.arr ts) =
      .arr (ts.map fun u =>
        ∑ i ∈ Finset.range cs.length, cs.getD i 0 * (u - o) ^ (cs.length - 1 - i)) := by
  constructor
  · simp only [np_at, atleast_1d, List.map_cons, List.map_nil, List.headD_cons]
    rw [vander_dot]
  · simp only [np_at, atleast_1d, NpVal.arr.injEq]
    exact List.map_congr_left fun u _ => vander_dot (u - o) cs

/-- C7 (documents the degree-0 shape bug): `d_at` on the constant motion
`PolynomialMotion(0.0, [5.0])` with the array input `[1.0, 2.0]` produces the
0-d array `0.0` (the `(1,)` result of the empty matmul squeezed), not the
same-shape array `[0.0, 0.0]` the specification describes — while the scalar
input correctly yields the scalar `0.0`, and `at` on the very same array
input does preserve the shape. -/
theorem C7_degree0_array_shape_bug :
    np_d_at 0 [5] (.arr [1, 2]) = .arr0 0 ∧
    np_d_at 0 [5] (.float 1) = .float 0 ∧
    np_at 0 [5] (.arr [1, 2]) = .arr [5, 5] := by
  refine ⟨rfl, rfl, ?_⟩
  norm_num [np_at, atleast_1d, dotL, vanderRow, List.range_succ]

/-- C8: `_flatten` terminates on every input: `nestedComposites m + 1` units
of fuel always complete the recursion, and each recursive step descends into
`m.m1`, which has strictly fewer nested composites than `m`. -/
theorem C8_flatten_terminates (m : Motion) (offset : ℚ) :
    flattenFuel (nestedComposites m + 1) m offset = some (_flatten m offset) ∧
    ∀ (n1 n2 : Motion) (o hz : ℚ) (b : Motion),
      nestedComposites n1 < nestedComposites (.pblend n1 n2 o hz b) := by
  refine ⟨flattenFuel_complete offset m _ (Nat.lt_succ_self _), fun n1 n2 o hz b => ?_⟩
  simp only [nestedComposites]
  omega

/-- C9: `_flatten` never constructs a new motion: its result is a node
already present in the input's structure (the input itself when it is not a
composite — second conjunct — or one of `m2`, `blend`, or a node found by
recursing into `m1`).  The embedding of `_flatten` is a pure function on the
motion tree, mirroring that the source performs no attribute assignment on
any motion reachable from `m`. -/
theorem C9_flatten_returns_existing_node (m : Motion) (offset : ℚ) :
    IsSub (_flatten m offset) m ∧
    ∀ (o : ℚ) (cs : List ℚ), _flatten (.poly o cs) offset = .poly o cs :=
  ⟨_flatten_isSub m offset, fun _ _ => rfl⟩

/-- C10: the blend depends on the two motions only through the four boundary
samples: two motion pairs agreeing on `at(tnow)`, `at(tnow+h)`, `d_at(tnow)`,
`d_at(tnow+h)` produce identical results (same offset, same coefficients). -/
theorem C10_blend_depends_only_on_samples (m1 m2 n1 n2 : Motion) (tnow h : ℚ)
    (e1 : m1.pos tnow = n1.pos tnow)
    (e2 : m2.pos (tnow + h) = n2.pos (tnow + h))
    (e3 : m1.d_at tnow = n1.d_at tnow)
    (e4 : m2.d_at (tnow + h) = n2.d_at (tnow + h)) :
    poly_blend_3 m1 m2 tnow h = poly_blend_3 n1 n2 tnow h := by
  unfold poly_blend_3 blendB
  rw [e1, e2, e3, e4]

/-- Witness for C10: two structurally different motion pairs with equal
boundary samples give the same blend. -/
theorem C10_witness :
    Motion.pos (.poly 0 [0, 1]) 0 = Motion.pos (.poly 0 [1]) 0 ∧
    Motion.pos (.poly 0 [2]) (0 + 1) = Motion.pos (.poly 1 [2]) (0 + 1) ∧
    Motion.d_at (.poly 0 [0, 1]) 0 = Motion.d_at (.poly 0 [1]) 0 ∧
    Motion.d_at (.poly 0 [2]) (0 + 1) = Motion.d_at (.poly 1 [2]) (0 + 1) ∧
    poly_blend_3 (.poly 0 [0, 1]) (.poly 0 [2]) 0 1 =
      poly_blend_3 (.poly 0 [1]) (.poly 1 [2]) 0 1 := by
  have e1 : Motion.pos (.poly 0 [0, 1]) 0 = Motion.pos (.poly 0 [1]) 0 := by
    norm_num [Motion.pos, polyAt, dotL, vanderRow, List.range_succ]
  have e2 : Motion.pos (.poly 0 [2]) (0 + 1) = Motion.pos (.poly 1 [2]) (0 + 1) := by
    norm_num [Motion.pos, polyAt, dotL, vanderRow, List.range_succ]
  have e3 : Motion.d_at (.poly 0 [0, 1]) 0 = Motion.d_at (.poly 0 [1]) 0 := by
    norm_num [Motion.d_at, polyDAt, dotL, derivRow, List.range']
  have e4 : Motion.d_at (.poly 0 [2]) (0 + 1) = Motion.d_at (.poly 1 [2]) (0 + 1) := by
    norm_num [Motion.d_at, polyDAt, dotL, derivRow, List.range']
  exact ⟨e1, e2, e3, e4,
    C10_blend_depends_only_on_samples (.poly 0 [0, 1]) (.poly 0 [2]) (.poly 0 [1])
      (.poly 1 [2]) 0 1 e1 e2 e3 e4⟩
